import Mathlib

/-!
# Verification of the H.A.T. assessment backend (`src/server.js`)

Shallow embedding of the test-assembly and scoring engine of the
recruitment/assessment server, together with proofs of the specified
properties.

Embedding conventions:
* JavaScript strings are Lean `String`s; a Mongoose string field that is
  `undefined` or `""` is modelled as `""` (both are falsy in the guards
  the server uses, e.g. `if (candidate.result)`).
* JSON numbers are modelled as `ℚ` (the scoring logic only compares and
  formats them; for the decimal inputs involved the rational semantics
  coincides with the IEEE-754 evaluation of the same expressions).
* `Math.random()` draws are modelled by an explicit choice source: each
  call of `Math.floor(Math.random() * k)` is an arbitrary natural number
  reduced mod `k`, which ranges exactly over the interval `[0, k)` that
  the floating-point expression produces.
* Database handlers become pure functions from the relevant record(s)
  and request body to a response value paired with the updated record(s);
  mail dispatch is an external collaborator and out of scope, per the
  design spec.
-/

namespace HAT

/-! ## The in-place array shuffle (`shuffleArray`, server.js:1059-1064)

```js
const shuffleArray = (array) => {
  for (let i = array.length - 1; i > 0; i--) {
    const j = Math.floor(Math.random() * (i + 1));
    [array[i], array[j]] = [array[j], array[i]];
  }
};
```
-/

/-- JS destructuring swap `[a[i], a[j]] = [a[j], a[i]]` on a list; when an
index is out of range (never the case in the server's uses) the list is
returned unchanged. -/
def swap {α : Type*} (l : List α) (i j : Nat) : List α :=
  match l.get? i, l.get? j with
  | some x, some y => (l.set i y).set j x
  | _, _ => l

/-- The shuffle loop: `fyAux c l i` performs the iterations of the
`for` loop with loop counter `i, i-1, …, 1`; at counter `k` the random
draw `Math.floor(Math.random() * (k + 1))` is modelled as `c k % (k+1)`. -/
def fyAux {α : Type*} (c : Nat → Nat) : List α → Nat → List α
  | l, 0 => l
  | l, i + 1 => fyAux c (swap l (i + 1) (c (i + 1) % (i + 2))) i

/-- `shuffleArray` itself: run the loop from `array.length - 1` down to `1`. -/
def shuffleList {α : Type*} (c : Nat → Nat) (l : List α) : List α :=
  fyAux c l (l.length - 1)

/-! ## JavaScript string primitives used by the handlers

Modelled directly over the character list of a `String` so that they are
evaluable by the kernel; every separator the server passes to
`String.prototype.split` is a single character (`'/'`, `','`, `' '`). -/

/-- JS `s.split(sep)` on the character level: `""` splits to `[""]`,
adjacent separators produce empty fields. -/
def splitChar (sep : Char) : List Char → List (List Char)
  | [] => [[]]
  | ch :: rest =>
    let r := splitChar sep rest
    if ch = sep then [] :: r
    else
      match r with
      | [] => [[ch]]
      | g :: gs => (ch :: g) :: gs

/-- JS `s.split(sep)` for a one-character separator. -/
def jsSplit (sep : Char) (s : String) : List String :=
  (splitChar sep s.data).map (fun cs => String.mk cs)

/-- JS `s.trim()`: strip whitespace from both ends. -/
def jsTrim (s : String) : String :=
  String.mk (((s.data.dropWhile Char.isWhitespace).reverse.dropWhile
    Char.isWhitespace).reverse)

/-- JS `s.toUpperCase()` (ASCII, which covers the bank names). -/
def jsToUpper (s : String) : String := String.mk (s.data.map Char.toUpper)

/-- JS `s.toLowerCase()` (ASCII, which covers the usernames). -/
def jsToLower (s : String) : String := String.mk (s.data.map Char.toLower)

/-- JS `s.charAt(0)`: the first character as a (possibly empty) string. -/
def charAt0 (s : String) : String :=
  match s.data with
  | [] => ""
  | ch :: _ => String.mk [ch]

/-- JS `s.padStart(3, '0')`. -/
def jsPadStart3 (s : String) : String :=
  if s.length ≥ 3 then s else String.mk (List.replicate (3 - s.length) '0') ++ s

/-- Decimal value of a digit list (most significant first). -/
def digitsToNat (cs : List Char) : Nat :=
  cs.foldl (fun acc ch => acc * 10 + (ch.toNat - 48)) 0

/-- JS `parseInt(s)` on an already-trimmed string: an optional sign followed
by leading decimal digits; `none` models `NaN`. (The legacy `0x` hex prefix
of `parseInt` is not modelled: the server only ever applies it to the
decimal attempted-count of a score string.) -/
def jsParseInt (s : String) : Option Int :=
  let signed : Int × List Char :=
    match s.data with
    | '-' :: r => (-1, r)
    | '+' :: r => (1, r)
    | r => (1, r)
  let ds := signed.2.takeWhile (fun ch => ch.isDigit)
  if ds.isEmpty then none else some (signed.1 * (digitsToNat ds : Nat))

/-- JS `x.toFixed(1)`: the integer `n` with `n / 10` closest to `x`
(ties to the larger `n`, i.e. `n = ⌊10x + 1/2⌋`), rendered with exactly
one digit after the decimal point. -/
def toFixed1 (x : ℚ) : String :=
  let n : Int := ⌊x * 10 + 1 / 2⌋
  if n < 0 then
    "-" ++ toString (n.natAbs / 10) ++ "." ++ toString (n.natAbs % 10)
  else
    toString (n.toNat / 10) ++ "." ++ toString (n.toNat % 10)

/-! ## Data model (Mongoose schemas, server.js:953-1015) -/

/-- A `Candidate` document — the fields the modelled handlers read or
write. `""` stands for an absent/empty string field. -/
structure Candidate where
  username : String
  password : String   -- bcrypt hash
  program : String
  project : String
  status : String
  result : String
  score : String
  videoLink : String
deriving DecidableEq, Repr

/-- A `QuestionBankItem` document. -/
structure QuestionRec where
  questionBankName : String
  questionId : String
  question : String
  referenceUrls : List String
  options : String
  questionType : String
  correctAnswer : String
deriving DecidableEq, Repr, Inhabited

/-- One question of the exam payload built by `GET /api/test/setup`
(server.js:1684-1693). -/
structure ExamQ where
  id : String
  question : String
  options : List String
  answer : String
  time : Nat
  type : String
deriving DecidableEq, Repr

/-- The random draws consumed by one run of the setup handler: one choice
stream per bucket shuffle and one per triplet shuffle. -/
structure RandSrc where
  easyR : Nat → Nat
  moderateR : Nat → Nat
  hardR : Nat → Nat
  tripletR : Nat → Nat → Nat

/-! ## Exam assembler (`GET /api/test/setup`, server.js:1647-1705) -/

/-- The response-payload conversion of one question document
(server.js:1684-1693): `options` is comma-split and trimmed (or `[]` when
the field is empty/falsy), the correct answer is included, and the time
allowance is 2 for `hard`, 1 otherwise. -/
def cleanQuestion (q : QuestionRec) : ExamQ :=
  { id := q.questionId
    question := q.question
    options := if q.options = "" then [] else (jsSplit ',' q.options).map (fun s => jsTrim s)
    answer := q.correctAnswer
    time := if q.questionType = "hard" then 2 else 1
    type := q.questionType }

/-- Bucket partition, per-bucket shuffles, and the triplet loop of the
setup handler (server.js:1663-1693), for a bank's question list `qs`. -/
def assembleCore (r : RandSrc) (qs : List QuestionRec) : List ExamQ :=
  let easyQuestions := shuffleList r.easyR (qs.filter (fun q => q.questionType == "easy"))
  let moderateQuestions :=
    shuffleList r.moderateR (qs.filter (fun q => q.questionType == "moderate"))
  let hardQuestions := shuffleList r.hardR (qs.filter (fun q => q.questionType == "hard"))
  let minCount := min easyQuestions.length (min moderateQuestions.length hardQuestions.length)
  let finalQuestions := ((List.range minCount).map (fun i =>
    shuffleList (r.tripletR i)
      [easyQuestions.getD i default, moderateQuestions.getD i default,
        hardQuestions.getD i default])).flatten
  finalQuestions.map cleanQuestion

/-- The spec's §8 scenario bank: "Go Backend" with 5 easy, 3 moderate and
4 hard questions. -/
def goBackendBank : List QuestionRec :=
  [⟨"Go Backend", "GB001", "e1", [], "", "easy", "a"⟩,
    ⟨"Go Backend", "GB002", "e2", [], "", "easy", "a"⟩,
    ⟨"Go Backend", "GB003", "e3", [], "", "easy", "a"⟩,
    ⟨"Go Backend", "GB004", "e4", [], "", "easy", "a"⟩,
    ⟨"Go Backend", "GB005", "e5", [], "", "easy", "a"⟩,
    ⟨"Go Backend", "GB006", "m1", [], "", "moderate", "a"⟩,
    ⟨"Go Backend", "GB007", "m2", [], "", "moderate", "a"⟩,
    ⟨"Go Backend", "GB008", "m3", [], "", "moderate", "a"⟩,
    ⟨"Go Backend", "GB009", "h1", [], "", "hard", "a"⟩,
    ⟨"Go Backend", "GB010", "h2", [], "", "hard", "a"⟩,
    ⟨"Go Backend", "GB011", "h3", [], "", "hard", "a"⟩,
    ⟨"Go Backend", "GB012", "h4", [], "", "hard", "a"⟩]

/-- Responses of `GET /api/test/setup`. -/
inductive SetupRes where
  | alreadySubmitted                                              -- 403
  | bankNotFound                                                  -- 404
  | ok (userDetails : String × String) (questions : List ExamQ)   -- 200
deriving DecidableEq

/-- `GET /api/test/setup`: guard on a closed record, `NotFound` on an
empty bank, otherwise the assembled exam. `qs` is the result of
`QuestionBankItem.find({questionBankName})`; the handler never writes the
candidate, which is returned unchanged. -/
def testSetup (r : RandSrc) (bankName username : String) (qs : List QuestionRec)
    (c : Candidate) : SetupRes × Candidate :=
  if c.result ≠ "" then (.alreadySubmitted, c)
  else if qs.length = 0 then (.bankNotFound, c)
  else (.ok (bankName, username) (assembleCore r qs), c)

/-! ## Scoring (`POST /api/test/submit` 1708-1766, `POST /api/test/fail` 1769-1818) -/

/-- Responses of the two scoring endpoints. -/
inductive SubmitRes where
  | alreadySubmitted   -- 403 'Test already submitted.'
  | internalError      -- 500 catch-all ('An error occurred.')
  | ok                 -- 200
deriving DecidableEq

/-- `POST /api/test/submit`. `percentage` is the numeric value of the JSON
body field (`parseFloat` of a number is that number, and `|| 0` fixes `0`);
a `scoreString` with no `'/'` makes `split('/')[1]` `undefined`, so the
subsequent `.trim()` throws and the catch-all answers 500 before any field
is written. Mail dispatch after the save is external and not modelled. -/
def submit (c : Candidate) (percentage : ℚ) (scoreString : String) :
    SubmitRes × Candidate :=
  if c.result ≠ "" then (.alreadySubmitted, c)
  else
    match (jsSplit '/' scoreString)[1]? with
    | none => (.internalError, c)
    | some part =>
      let numericPercentage := percentage
      let attemptedQuestions : Int := (jsParseInt (jsTrim part)).getD 0
      let candidateStatus :=
        if attemptedQuestions < 15 then "Not Qualified"
        else if numericPercentage ≥ 3 / 4 then "Pass"
        else "Fail"
      (.ok, { c with
                score := toFixed1 (numericPercentage * 100) ++ "%"
                result := scoreString
                status := candidateStatus })

/-- `POST /api/test/fail`: same idempotency guard; records a zero verdict
and stores the client-reported reason in `status` and `videoLink`. -/
def failTest (c : Candidate) (failureReason : String) : SubmitRes × Candidate :=
  if c.result ≠ "" then (.alreadySubmitted, c)
  else (.ok, { c with
                 score := "0.0%"
                 result := "0 / 0"
                 status := failureReason
                 videoLink := failureReason })

/-! ## Test-taker login (`POST /api/test/auth/login`, server.js:1176-1214) -/

/-- Responses of the test-taker login. -/
inductive LoginRes where
  | badRequest                       -- 400 missing fields
  | invalidCredentials               -- 401
  | alreadyAttempted                 -- 403, no token issued
  | ok (questionBankName : String)   -- 200, token scoped to this bank
deriving DecidableEq

/-- `POST /api/test/auth/login`. `compare` is the external
`bcrypt.compare(password, hash)` collaborator; `findCandidate` is
`Candidate.findOne({username})`. The handler performs no database write:
its result is the response alone, with the token's bank scope carried by
the `ok` constructor. -/
def testLogin (compare : String → String → Bool)
    (findCandidate : String → Option Candidate) (username password : String) :
    LoginRes :=
  if username = "" ∨ password = "" then .badRequest
  else
    match findCandidate (jsToLower username) with
    | none => .invalidCredentials
    | some c =>
      if ¬ compare password c.password then .invalidCredentials
      else if c.result ≠ "" ∨ c.status = "Pass" ∨ c.status = "Fail" then .alreadyAttempted
      else .ok (jsTrim (c.program ++ " " ++ c.project))

/-! ## Question-bank CRUD (server.js:1543-1609) -/

/-- The id computation of `POST /api/quizzer/questions/:questionBankName`
(server.js:1548-1555), given the current document count of that bank. -/
def nextQuestionId (questionBankName : String) (count : Nat) : String :=
  let nameParts := jsSplit ' ' questionBankName
  let firstInitial :=
    match nameParts.get? 0 with
    | some p => if p = "" then "" else charAt0 p   -- JS: nameParts[0] ? … : ''
    | none => ""
  let lastInitial :=
    if nameParts.length > 1 then charAt0 (nameParts.getD (nameParts.length - 1) "")
    else ""
  let idPrefix := jsToUpper (firstInitial ++ lastInitial)
  idPrefix ++ jsPadStart3 (toString (count + 1))

/-- Modelled from the spec (§4.2): the id rule as the spec words it —
"prefixed by the bank name's first-word initial + last-word initial,
uppercased", where the words of a name are its non-empty space-separated
parts. Used only to compare the spec's rule against `nextQuestionId`. -/
def specNextId (bankName : String) (count : Nat) : String :=
  let ws := (jsSplit ' ' bankName).filter (fun w => w ≠ "")
  (jsToUpper (charAt0 (ws.headD "") ++ charAt0 (ws.getLastD "")))
    ++ jsPadStart3 (toString (count + 1))

/-- `POST /api/quizzer/questions/:questionBankName`: count the bank's
documents, derive the id, append the new question. (`filter(String)` on
the reference urls drops exactly the empty strings among the four
fields.) -/
def addQuestion (store : List QuestionRec) (bankName : String) (question : String)
    (refs : List String) (opts ty ans : String) : List QuestionRec :=
  let count := (store.filter (fun q => q.questionBankName == bankName)).length
  store ++ [{ questionBankName := bankName
              questionId := nextQuestionId bankName count
              question := question
              referenceUrls := refs.filter (fun s => s ≠ "")
              options := opts
              questionType := jsToLower (jsTrim ty)
              correctAnswer := ans }]

/-- Responses of the update/delete CRUD endpoints. -/
inductive CrudRes where
  | notFound   -- 404 'Question ID not found.'
  | ok         -- 200
deriving DecidableEq

/-- `QuestionBankItem.findOneAndUpdate({questionId}, {...})`: rewrite the
first document whose `questionId` matches — the filter names no bank.
Returns whether a document matched. -/
def findOneAndUpdateById (store : List QuestionRec) (qid : String) (newQ : String)
    (newRefs : List String) (newOpts newType newAns : String) :
    Bool × List QuestionRec :=
  match store with
  | [] => (false, [])
  | q :: rest =>
    if q.questionId = qid then
      (true, { q with
                 question := newQ
                 referenceUrls := newRefs
                 options := newOpts
                 questionType := jsToLower (jsTrim newType)
                 correctAnswer := newAns } :: rest)
    else
      let res := findOneAndUpdateById rest qid newQ newRefs newOpts newType newAns
      (res.1, q :: res.2)

/-- `PUT /api/quizzer/questions/:questionBankName/:questionId`
(server.js:1574-1596). The `:questionBankName` route parameter is read but
never used in the query — the update is keyed on `questionId` alone. -/
def updateQuestion (store : List QuestionRec) (questionBankName questionId : String)
    (newQ : String) (newRefs : List String) (newOpts newType newAns : String) :
    CrudRes × List QuestionRec :=
  let res := findOneAndUpdateById store questionId newQ
    (newRefs.filter (fun s => s ≠ "")) newOpts newType newAns
  (if res.1 then CrudRes.ok else CrudRes.notFound, res.2)

/-- `QuestionBankItem.deleteOne({questionId})`: remove the first document
whose `questionId` matches; returns the deleted count. -/
def deleteOneById (store : List QuestionRec) (qid : String) :
    Nat × List QuestionRec :=
  match store with
  | [] => (0, [])
  | q :: rest =>
    if q.questionId = qid then (1, rest)
    else
      let res := deleteOneById rest qid
      (res.1, q :: res.2)

/-- `DELETE /api/quizzer/questions/:questionBankName/:questionId`
(server.js:1598-1609); again keyed on `questionId` alone. -/
def deleteQuestion (store : List QuestionRec) (questionBankName questionId : String) :
    CrudRes × List QuestionRec :=
  let res := deleteOneById store questionId
  (if res.1 = 0 then CrudRes.notFound else CrudRes.ok, res.2)


/-! ## Choice vectors for the uniformity analysis of `shuffleArray`

For an array of length `n`, one run of `shuffleArray` consumes one draw
`Math.floor(Math.random() * (i + 1))` per loop counter `i = n-1, …, 1`,
each uniform over `{0, …, i}` under the spec's randomness model. A
`ChoiceVec n` packages one such draw per index (index 0 is unused by the
loop); under the model, all `n!` choice vectors are equally likely. -/
abbrev ChoiceVec (n : Nat) := ∀ i : Fin n, Fin (i.val + 1)

/-- Read a choice vector as a draw stream for `fyAux`. -/
def vecToFun {n : Nat} (v : ChoiceVec n) : Nat → Nat :=
  fun k => if h : k < n then (v ⟨k, h⟩).val else 0

/-- `shuffleArray` driven by a finite choice vector. -/
def shuffleVec {α : Type*} {n : Nat} (v : ChoiceVec n) (l : List α) : List α :=
  shuffleList (vecToFun v) l

/-! ## Helper lemmas: the shuffle always permutes -/

theorem swap_nil {α : Type*} (i j : Nat) : swap ([] : List α) i j = [] := by
  simp [swap]

theorem swap_cons_succ_succ {α : Type*} (a : α) (t : List α) (i j : Nat) :
    swap (a :: t) (i + 1) (j + 1) = a :: swap t i j := by
  simp only [swap, List.get?_cons_succ]
  cases hi : t.get? i <;> cases hj : t.get? j <;> simp [List.set]

/-- Moving the element at index `j` to the head: if `t.get? j = some y`
then `x :: t` is a permutation of `y :: t.set j x`. -/
theorem perm_cons_set {α : Type*} :
    ∀ (t : List α) (j : Nat) (x y : α), t.get? j = some y →
      List.Perm (x :: t) (y :: t.set j x) := by
  intro t
  induction t with
  | nil => intro j x y h; simp at h
  | cons a t ih =>
    intro j x y h
    cases j with
    | zero =>
      simp only [List.get?_cons_zero, Option.some.injEq] at h
      subst h
      simpa using List.Perm.swap a x t
    | succ j =>
      simp only [List.get?_cons_succ] at h
      simp only [List.set_cons_succ]
      exact ((List.Perm.swap a x t).trans
        (List.Perm.cons a (ih j x y h))).trans (List.Perm.swap y a (t.set j x))

/-- A `swap` is a permutation of the original list. -/
theorem swap_perm {α : Type*} : ∀ (l : List α) (i j : Nat), List.Perm (swap l i j) l := by
  intro l
  induction l with
  | nil => intro i j; simp [swap]
  | cons a t ih =>
    intro i j
    cases i with
    | zero =>
      cases j with
      | zero => simp [swap]
      | succ j =>
        simp only [swap, List.get?_cons_zero, List.get?_cons_succ]
        cases hj : t.get? j with
        | none => exact List.Perm.refl _
        | some y =>
          simp only [List.set_cons_zero, List.set_cons_succ]
          exact (perm_cons_set t j a y hj).symm
    | succ i =>
      cases j with
      | zero =>
        simp only [swap, List.get?_cons_zero, List.get?_cons_succ]
        cases hi : t.get? i with
        | none => exact List.Perm.refl _
        | some y =>
          simp only [List.set_cons_succ, List.set_cons_zero]
          exact (perm_cons_set t i a y hi).symm
      | succ j =>
        rw [swap_cons_succ_succ]
        exact List.Perm.cons a (ih i j)

/-- Each run of the shuffle loop permutes the list. -/
theorem fyAux_perm {α : Type*} (c : Nat → Nat) :
    ∀ (i : Nat) (l : List α), List.Perm (fyAux c l i) l := by
  intro i
  induction i with
  | zero => intro l; exact List.Perm.refl _
  | succ i ih =>
    intro l
    exact (ih _).trans (swap_perm l (i + 1) (c (i + 1) % (i + 2)))

/-- `shuffleArray` permutes its input, whatever the random draws are. -/
theorem shuffleList_perm {α : Type*} (c : Nat → Nat) (l : List α) :
    List.Perm (shuffleList c l) l :=
  fyAux_perm c (l.length - 1) l

theorem shuffleList_length {α : Type*} (c : Nat → Nat) (l : List α) :
    (shuffleList c l).length = l.length :=
  (shuffleList_perm c l).length_eq

theorem shuffleList_countP {α : Type*} (c : Nat → Nat) (l : List α) (p : α → Bool) :
    (shuffleList c l).countP p = l.countP p :=
  (shuffleList_perm c l).countP_eq p

theorem shuffleList_mem {α : Type*} (c : Nat → Nat) (l : List α) (a : α) :
    a ∈ shuffleList c l ↔ a ∈ l :=
  (shuffleList_perm c l).mem_iff


/-! ## Claim theorems: scoring endpoints -/

/-- **C3.** A submit call on an open candidate record with a score string
containing a `'/'` persists: `status` = `Not Qualified` when the attempted
count (the number after the `'/'`) is below 15, else `Pass` when the
submitted fraction is at least 0.75, else `Fail`; `score` = the fraction
times 100 rendered to exactly one decimal place plus `"%"`; `result` = the
submitted score string verbatim; and `videoLink` is untouched (hence still
empty on an open record). -/
theorem submit_verdict (c : Candidate) (p : ℚ) (s part : String)
    (hopen : c.result = "")
    (hsplit : (jsSplit '/' s)[1]? = some part) :
    (submit c p s).1 = SubmitRes.ok ∧
    (submit c p s).2.status =
      (if (jsParseInt (jsTrim part)).getD 0 < 15 then "Not Qualified"
       else if p ≥ 3 / 4 then "Pass" else "Fail") ∧
    (submit c p s).2.score = toFixed1 (p * 100) ++ "%" ∧
    (submit c p s).2.result = s ∧
    (submit c p s).2.videoLink = c.videoLink := by
  simp [submit, hopen, hsplit]

/-- Witness for C3: the spec's two scenarios. Submitting `"18 / 20"` at
fraction `4/5` yields `Pass` with score `"80.0%"`; submitting `"9 / 10"`
at fraction `9/10` yields `Not Qualified` (the attempted-count floor
dominates). -/
theorem submit_verdict_witness :
    (submit ⟨"u", "h", "Go", "Backend", "Mail Sent", "", "", ""⟩ (4/5) "18 / 20").1 =
      SubmitRes.ok ∧
    (submit ⟨"u", "h", "Go", "Backend", "Mail Sent", "", "", ""⟩ (4/5) "18 / 20").2.status =
      "Pass" ∧
    (submit ⟨"u", "h", "Go", "Backend", "Mail Sent", "", "", ""⟩ (4/5) "18 / 20").2.score =
      "80.0%" ∧
    (submit ⟨"u", "h", "Go", "Backend", "Mail Sent", "", "", ""⟩ (4/5) "18 / 20").2.result =
      "18 / 20" ∧
    (submit ⟨"u", "h", "Go", "Backend", "Mail Sent", "", "", ""⟩ (9/10) "9 / 10").2.status =
      "Not Qualified" := by
  obtain ⟨h1, h2, h3, h4, -⟩ :=
    submit_verdict ⟨"u", "h", "Go", "Backend", "Mail Sent", "", "", ""⟩ (4/5) "18 / 20"
      " 20" rfl (by decide)
  obtain ⟨-, h5, -, -, -⟩ :=
    submit_verdict ⟨"u", "h", "Go", "Backend", "Mail Sent", "", "", ""⟩ (9/10) "9 / 10"
      " 10" rfl (by decide)
  refine ⟨h1, ?_, ?_, h4, ?_⟩
  · rw [h2, show (jsParseInt (jsTrim " 20")).getD 0 = (20 : Int) from by decide,
      if_neg (by decide), if_pos (by norm_num)]
  · rw [h3, show toFixed1 ((4/5 : ℚ) * 100) = "80.0" from by
      simp only [toFixed1]
      rw [show ⌊(4/5 : ℚ) * 100 * 10 + 1/2⌋ = (800 : ℤ) from by norm_num]
      decide]
    decide
  · rw [h5, show (jsParseInt (jsTrim " 10")).getD 0 = (10 : Int) from by decide,
      if_pos (by decide)]

/-- **C8.** A fail call on an open candidate record succeeds, persists the
zero score `"0.0%"` and zero result `"0 / 0"` (a non-empty `result`, so
the record is closed), and stores the given reason in both `status` and
`videoLink`. -/
theorem fail_persists_reason (c : Candidate) (reason : String)
    (hopen : c.result = "") :
    (failTest c reason).1 = SubmitRes.ok ∧
    (failTest c reason).2.score = "0.0%" ∧
    (failTest c reason).2.result = "0 / 0" ∧
    (failTest c reason).2.result ≠ "" ∧
    (failTest c reason).2.status = reason ∧
    (failTest c reason).2.videoLink = reason := by
  simp [failTest, hopen]

/-- Witness for C8 at a concrete open candidate and reason. -/
theorem fail_persists_reason_witness :
    (failTest ⟨"u", "h", "Go", "Backend", "Mail Sent", "", "", ""⟩ "Tab switch").1 =
      SubmitRes.ok ∧
    (failTest ⟨"u", "h", "Go", "Backend", "Mail Sent", "", "", ""⟩ "Tab switch").2.score =
      "0.0%" ∧
    (failTest ⟨"u", "h", "Go", "Backend", "Mail Sent", "", "", ""⟩ "Tab switch").2.result =
      "0 / 0" ∧
    (failTest ⟨"u", "h", "Go", "Backend", "Mail Sent", "", "", ""⟩ "Tab switch").2.status =
      "Tab switch" ∧
    (failTest ⟨"u", "h", "Go", "Backend", "Mail Sent", "", "", ""⟩ "Tab switch").2.videoLink =
      "Tab switch" := by
  obtain ⟨h1, h2, h3, -, h5, h6⟩ :=
    fail_persists_reason ⟨"u", "h", "Go", "Backend", "Mail Sent", "", "", ""⟩
      "Tab switch" rfl
  exact ⟨h1, h2, h3, h5, h6⟩

/-- **C10.** Submitting a score string with no `'/'` separator on an open
record makes `split('/')[1]` `undefined`, so `.trim()` throws before any
field assignment; the catch-all answers the generic 500 (the handler has
no 400/ValidationError path at all — see `SubmitRes`), the candidate is
unchanged, and the still-open record can later be closed by a well-formed
submit or by fail. -/
theorem submit_no_separator (c : Candidate) (p p' : ℚ) (s s' part' r : String)
    (hopen : c.result = "") (hbad : (jsSplit '/' s)[1]? = none)
    (hgood : (jsSplit '/' s')[1]? = some part') :
    (submit c p s).1 = SubmitRes.internalError ∧
    (submit c p s).2 = c ∧
    (submit (submit c p s).2 p' s').1 = SubmitRes.ok ∧
    (failTest (submit c p s).2 r).1 = SubmitRes.ok := by
  have h2 : (submit c p s).2 = c := by simp [submit, hopen, hbad]
  refine ⟨by simp [submit, hopen, hbad], h2, ?_, ?_⟩
  · rw [h2]; simp [submit, hopen, hgood]
  · rw [h2]; simp [failTest, hopen]

/-- Witness for C10: `"nosep"` yields the 500 with no state change, after
which `"10 / 20"` still submits. -/
theorem submit_no_separator_witness :
    (submit ⟨"u", "h", "Go", "Backend", "Mail Sent", "", "", ""⟩ 0 "nosep").1 =
      SubmitRes.internalError ∧
    (submit ⟨"u", "h", "Go", "Backend", "Mail Sent", "", "", ""⟩ 0 "nosep").2 =
      ⟨"u", "h", "Go", "Backend", "Mail Sent", "", "", ""⟩ ∧
    (submit (submit ⟨"u", "h", "Go", "Backend", "Mail Sent", "", "", ""⟩ 0 "nosep").2
      0 "10 / 20").1 = SubmitRes.ok ∧
    (failTest (submit ⟨"u", "h", "Go", "Backend", "Mail Sent", "", "", ""⟩ 0 "nosep").2
      "reason").1 = SubmitRes.ok :=
  submit_no_separator ⟨"u", "h", "Go", "Backend", "Mail Sent", "", "", ""⟩ 0 0
    "nosep" "10 / 20" " 20" "reason" rfl (by decide) (by decide)

/-- **C5.** Test-taker login: with both fields present and the username
resolving to a candidate, a bcrypt mismatch answers 401; on a match, a
non-empty `result` or a terminal `Pass`/`Fail` status answers 403 with no
token; otherwise the issued token is scoped to the bank name derived from
the candidate's program and project (`trim(program + " " + project)`). -/
theorem login_gating (compare : String → String → Bool)
    (findCandidate : String → Option Candidate) (username password : String)
    (c : Candidate) (hu : username ≠ "") (hp : password ≠ "")
    (hfind : findCandidate (jsToLower username) = some c) :
    (compare password c.password = false →
      testLogin compare findCandidate username password = LoginRes.invalidCredentials) ∧
    (compare password c.password = true →
      (c.result ≠ "" ∨ c.status = "Pass" ∨ c.status = "Fail") →
      testLogin compare findCandidate username password = LoginRes.alreadyAttempted) ∧
    (compare password c.password = true →
      c.result = "" → c.status ≠ "Pass" → c.status ≠ "Fail" →
      testLogin compare findCandidate username password =
        LoginRes.ok (jsTrim (c.program ++ " " ++ c.project))) := by
  refine ⟨fun hm => ?_, fun hm hcl => ?_, fun hm hr hs1 hs2 => ?_⟩
  · simp [testLogin, hu, hp, hfind, hm]
  · rcases hcl with hcl | hcl | hcl <;> simp [testLogin, hu, hp, hfind, hm, hcl]
  · simp [testLogin, hu, hp, hfind, hm, hr, hs1, hs2]

/-- Witness for C5: the spec's replay scenario — a candidate whose
`result` is already set logs in with the right password and gets 403 —
plus a successful login on an open record, scoped to `"Go Backend"`. -/
theorem login_gating_witness :
    testLogin (fun p h => p == h)
      (fun _ => some ⟨"alice", "pw", "Go", "Backend", "Pass", "10 / 20", "50.0%", ""⟩)
      "Alice" "pw" = LoginRes.alreadyAttempted ∧
    testLogin (fun p h => p == h)
      (fun _ => some ⟨"bob", "pw", "Go", "Backend", "Mail Sent", "", "", ""⟩)
      "Bob" "pw" = LoginRes.ok "Go Backend" := by
  constructor
  · exact (login_gating (fun p h => p == h)
      (fun _ => some ⟨"alice", "pw", "Go", "Backend", "Pass", "10 / 20", "50.0%", ""⟩)
      "Alice" "pw" _ (by decide) (by decide) rfl).2.1 rfl (by simp)
  · have h := (login_gating (fun p h => p == h)
      (fun _ => some ⟨"bob", "pw", "Go", "Backend", "Mail Sent", "", "", ""⟩)
      "Bob" "pw" _ (by decide) (by decide) rfl).2.2 rfl rfl (by decide) (by decide)
    rw [h]
    decide


/-! ## Claim theorems: the closed-record invariant -/

/-- A successful submit leaves a non-empty `result` (the persisted score
string necessarily contains a `'/'`, so it is not `""`). -/
theorem submit_ok_closes (c : Candidate) (p : ℚ) (s : String)
    (hok : (submit c p s).1 = SubmitRes.ok) : (submit c p s).2.result ≠ "" := by
  by_cases hres : c.result ≠ ""
  · simp [submit, hres] at hok
  · push_neg at hres
    cases hsp : (jsSplit '/' s)[1]? with
    | none => simp [submit, hres, hsp] at hok
    | some part =>
      simp only [submit, hres, ne_eq, not_true_eq_false, if_false, hsp]
      intro hs0
      rw [hs0] at hsp
      rw [show (jsSplit '/' "")[1]? = none from rfl] at hsp
      cases hsp

/-- A successful fail leaves `result = "0 / 0" ≠ ""`. -/
theorem fail_ok_closes (c : Candidate) (reason : String)
    (hok : (failTest c reason).1 = SubmitRes.ok) :
    (failTest c reason).2.result ≠ "" := by
  by_cases hres : c.result ≠ ""
  · simp [failTest, hres] at hok
  · push_neg at hres
    simp [failTest, hres]

/-- On a record with non-empty `result`, each scoring operation answers
403 and returns the record unchanged. -/
theorem closed_record_noop (c : Candidate) (hclosed : c.result ≠ "")
    (r : RandSrc) (bank user : String) (qs : List QuestionRec) (p : ℚ)
    (s reason : String) :
    testSetup r bank user qs c = (SetupRes.alreadySubmitted, c) ∧
    submit c p s = (SubmitRes.alreadySubmitted, c) ∧
    failTest c reason = (SubmitRes.alreadySubmitted, c) := by
  refine ⟨?_, ?_, ?_⟩ <;> simp [testSetup, submit, failTest, hclosed]

/-- **C1.** Once `result` is non-empty the attempt is permanently closed:
exam setup, submit and fail all answer 403 (`AlreadySubmitted`) and leave
every candidate field — in particular `result`, `score`, `status`,
`videoLink` — exactly as written by the first successful call (the login
handler performs no write at all: see `testLogin`, whose type produces
only a response). Consequently, of two successive submit/fail calls whose
first succeeded, the second always returns 403 and changes nothing. -/
theorem verdict_immutable (c : Candidate) (r : RandSrc) (bank user : String)
    (qs : List QuestionRec) (p p' : ℚ) (s s' reason reason' : String) :
    (c.result ≠ "" →
      testSetup r bank user qs c = (SetupRes.alreadySubmitted, c) ∧
      submit c p s = (SubmitRes.alreadySubmitted, c) ∧
      failTest c reason = (SubmitRes.alreadySubmitted, c)) ∧
    ((submit c p s).1 = SubmitRes.ok →
      submit (submit c p s).2 p' s' = (SubmitRes.alreadySubmitted, (submit c p s).2) ∧
      failTest (submit c p s).2 reason' =
        (SubmitRes.alreadySubmitted, (submit c p s).2)) ∧
    ((failTest c reason).1 = SubmitRes.ok →
      submit (failTest c reason).2 p' s' =
        (SubmitRes.alreadySubmitted, (failTest c reason).2) ∧
      failTest (failTest c reason).2 reason' =
        (SubmitRes.alreadySubmitted, (failTest c reason).2)) := by
  refine ⟨fun hclosed => closed_record_noop c hclosed r bank user qs p s reason,
    fun hok => ?_, fun hok => ?_⟩
  · have hcl := submit_ok_closes c p s hok
    exact ⟨(closed_record_noop _ hcl r bank user qs p' s' reason').2.1,
      (closed_record_noop _ hcl r bank user qs p' s' reason').2.2⟩
  · have hcl := fail_ok_closes c reason hok
    exact ⟨(closed_record_noop _ hcl r bank user qs p' s' reason').2.1,
      (closed_record_noop _ hcl r bank user qs p' s' reason').2.2⟩

/-- Witness for C1: a closed record rejects submit and fail unchanged, and
after a successful fail the second fail is rejected with no overwrite. -/
theorem verdict_immutable_witness :
    submit ⟨"u", "h", "Go", "Backend", "Pass", "10 / 20", "50.0%", ""⟩ 0 "1 / 1" =
      (SubmitRes.alreadySubmitted,
        ⟨"u", "h", "Go", "Backend", "Pass", "10 / 20", "50.0%", ""⟩) ∧
    failTest ⟨"u", "h", "Go", "Backend", "Pass", "10 / 20", "50.0%", ""⟩ "r" =
      (SubmitRes.alreadySubmitted,
        ⟨"u", "h", "Go", "Backend", "Pass", "10 / 20", "50.0%", ""⟩) ∧
    failTest (failTest ⟨"u", "h", "Go", "Backend", "Mail Sent", "", "", ""⟩ "Tab").2
        "other" =
      (SubmitRes.alreadySubmitted,
        (failTest ⟨"u", "h", "Go", "Backend", "Mail Sent", "", "", ""⟩ "Tab").2) := by
  refine ⟨?_, ?_, ?_⟩
  · exact ((verdict_immutable ⟨"u", "h", "Go", "Backend", "Pass", "10 / 20", "50.0%", ""⟩
      ⟨fun _ => 0, fun _ => 0, fun _ => 0, fun _ _ => 0⟩ "b" "u" [] 0 0 "1 / 1" "1 / 1"
      "r" "r").1 (by decide)).2.1
  · exact ((verdict_immutable ⟨"u", "h", "Go", "Backend", "Pass", "10 / 20", "50.0%", ""⟩
      ⟨fun _ => 0, fun _ => 0, fun _ => 0, fun _ _ => 0⟩ "b" "u" [] 0 0 "1 / 1" "1 / 1"
      "r" "r").1 (by decide)).2.2
  · exact ((verdict_immutable ⟨"u", "h", "Go", "Backend", "Mail Sent", "", "", ""⟩
      ⟨fun _ => 0, fun _ => 0, fun _ => 0, fun _ _ => 0⟩ "b" "u" [] 0 0 "1 / 1" "1 / 1"
      "Tab" "other").2.2 rfl).2


/-! ## Claim theorems: exam assembly -/

/-- Sum of a constant map over `range`. -/
theorem sum_map_range_const (k : Nat) :
    ∀ n : Nat, ((List.range n).map (fun _ => k)).sum = k * n := by
  intro n
  induction n with
  | zero => simp
  | succ n ih => rw [List.range_succ]; simp [ih]; ring

/-- In a flattening of blocks of length 3, the `i`-th block is the slice
at offset `3 * i`. -/
theorem flatten_blocks_slice {α : Type*} :
    ∀ (L : List (List α)), (∀ b ∈ L, b.length = 3) →
      ∀ i, i < L.length → (L.flatten.drop (3 * i)).take 3 = L.getD i [] := by
  intro L
  induction L with
  | nil => intro _ i hi; simp at hi
  | cons b L ih =>
    intro h3 i hi
    cases i with
    | zero =>
      simp only [Nat.mul_zero, List.drop_zero, List.flatten_cons, List.getD_cons_zero]
      exact List.take_left' (h3 b (List.mem_cons_self b L))
    | succ i =>
      have hb := h3 b (List.mem_cons_self b L)
      simp only [List.flatten_cons, List.getD_cons_succ]
      rw [show 3 * (i + 1) = b.length + 3 * i by rw [hb]; ring, List.drop_append]
      exact ih (fun b' hb' => h3 b' (List.mem_cons_of_mem b hb')) i
        (Nat.lt_of_succ_lt_succ hi)

/-- A shuffled triplet formed from one question of each tier contains
exactly one question of each tier. -/
theorem triplet_counts (e m h : List QuestionRec) (c : Nat → Nat) (i : Nat)
    (he : ∀ q ∈ e, q.questionType = "easy")
    (hm : ∀ q ∈ m, q.questionType = "moderate")
    (hh : ∀ q ∈ h, q.questionType = "hard")
    (hie : i < e.length) (him : i < m.length) (hih : i < h.length) :
    (shuffleList c [e.getD i default, m.getD i default, h.getD i default]).countP
        (fun q => q.questionType == "easy") = 1 ∧
    (shuffleList c [e.getD i default, m.getD i default, h.getD i default]).countP
        (fun q => q.questionType == "moderate") = 1 ∧
    (shuffleList c [e.getD i default, m.getD i default, h.getD i default]).countP
        (fun q => q.questionType == "hard") = 1 := by
  have he' : ((e[i]?).getD default).questionType = "easy" := by
    rw [List.getElem?_eq_getElem hie, Option.getD_some]
    exact he _ (List.getElem_mem hie)
  have hm' : ((m[i]?).getD default).questionType = "moderate" := by
    rw [List.getElem?_eq_getElem him, Option.getD_some]
    exact hm _ (List.getElem_mem him)
  have hh' : ((h[i]?).getD default).questionType = "hard" := by
    rw [List.getElem?_eq_getElem hih, Option.getD_some]
    exact hh _ (List.getElem_mem hih)
  have hperm := shuffleList_perm c [e.getD i default, m.getD i default, h.getD i default]
  refine ⟨?_, ?_, ?_⟩ <;>
    rw [hperm.countP_eq] <;>
    simp [List.countP_cons, he', hm', hh']

/-- Everything in a shuffled tier bucket has that tier. -/
theorem bucket_tier (c : Nat → Nat) (qs : List QuestionRec) (t : String) :
    ∀ q ∈ shuffleList c (qs.filter (fun q => q.questionType == t)),
      q.questionType = t := by
  intro q hq
  rw [shuffleList_mem] at hq
  exact eq_of_beq (List.mem_filter.1 hq).2

/-- The triplet loop over arbitrary tier buckets `e`, `m`, `h`: block
structure, per-slice tier counts, and total tier counts of the cleaned
output. -/
theorem blocks_spec (e m h : List QuestionRec) (tc : Nat → Nat → Nat)
    (he : ∀ q ∈ e, q.questionType = "easy")
    (hm : ∀ q ∈ m, q.questionType = "moderate")
    (hh : ∀ q ∈ h, q.questionType = "hard") :
    (((List.range (min e.length (min m.length h.length))).map (fun i =>
        shuffleList (tc i) [e.getD i default, m.getD i default,
          h.getD i default])).flatten.map cleanQuestion).length =
      3 * min e.length (min m.length h.length) ∧
    (∀ i, i < min e.length (min m.length h.length) →
      (((((List.range (min e.length (min m.length h.length))).map (fun i =>
          shuffleList (tc i) [e.getD i default, m.getD i default,
            h.getD i default])).flatten.map cleanQuestion).drop (3 * i)).take 3).countP
          (fun q => q.type == "easy") = 1 ∧
      (((((List.range (min e.length (min m.length h.length))).map (fun i =>
          shuffleList (tc i) [e.getD i default, m.getD i default,
            h.getD i default])).flatten.map cleanQuestion).drop (3 * i)).take 3).countP
          (fun q => q.type == "moderate") = 1 ∧
      (((((List.range (min e.length (min m.length h.length))).map (fun i =>
          shuffleList (tc i) [e.getD i default, m.getD i default,
            h.getD i default])).flatten.map cleanQuestion).drop (3 * i)).take 3).countP
          (fun q => q.type == "hard") = 1) ∧
    (((List.range (min e.length (min m.length h.length))).map (fun i =>
        shuffleList (tc i) [e.getD i default, m.getD i default,
          h.getD i default])).flatten.map cleanQuestion).countP
        (fun q => q.type == "easy") = min e.length (min m.length h.length) ∧
    (((List.range (min e.length (min m.length h.length))).map (fun i =>
        shuffleList (tc i) [e.getD i default, m.getD i default,
          h.getD i default])).flatten.map cleanQuestion).countP
        (fun q => q.type == "moderate") = min e.length (min m.length h.length) ∧
    (((List.range (min e.length (min m.length h.length))).map (fun i =>
        shuffleList (tc i) [e.getD i default, m.getD i default,
          h.getD i default])).flatten.map cleanQuestion).countP
        (fun q => q.type == "hard") = min e.length (min m.length h.length) := by
  set n := min e.length (min m.length h.length) with hn
  set blk : Nat → List QuestionRec := fun i =>
    shuffleList (tc i) [e.getD i default, m.getD i default, h.getD i default] with hblk
  have hblk3 : ∀ b ∈ (List.range n).map blk, b.length = 3 := by
    intro b hb
    obtain ⟨i, -, rfl⟩ := List.mem_map.1 hb
    rw [hblk, shuffleList_length]
    rfl
  have hcnts : ∀ i, i < n →
      (blk i).countP (fun q => q.questionType == "easy") = 1 ∧
      (blk i).countP (fun q => q.questionType == "moderate") = 1 ∧
      (blk i).countP (fun q => q.questionType == "hard") = 1 := by
    intro i hi
    exact triplet_counts e m h (tc i) i he hm hh
      (by omega) (by omega) (by omega)
  have hslice : ∀ i, i < n →
      ((((List.range n).map blk).flatten.map cleanQuestion).drop (3 * i)).take 3 =
        (blk i).map cleanQuestion := by
    intro i hi
    rw [← List.map_drop, ← List.map_take,
      flatten_blocks_slice ((List.range n).map blk) hblk3 i (by simpa using hi)]
    congr 1
    rw [List.getD_eq_getElem _ _ (by simpa using hi), List.getElem_map,
      List.getElem_range]
  have hcompE : ∀ (l : List QuestionRec),
      (l.map cleanQuestion).countP (fun q => q.type == "easy") =
        l.countP (fun q => q.questionType == "easy") := by
    intro l; rw [List.countP_map]; rfl
  have hcompM : ∀ (l : List QuestionRec),
      (l.map cleanQuestion).countP (fun q => q.type == "moderate") =
        l.countP (fun q => q.questionType == "moderate") := by
    intro l; rw [List.countP_map]; rfl
  have hcompH : ∀ (l : List QuestionRec),
      (l.map cleanQuestion).countP (fun q => q.type == "hard") =
        l.countP (fun q => q.questionType == "hard") := by
    intro l; rw [List.countP_map]; rfl
  have htot : ∀ (p : QuestionRec → Bool), (∀ i, i < n → (blk i).countP p = 1) →
      (((List.range n).map blk).flatten).countP p = n := by
    intro p hp
    rw [List.countP_flatten, List.map_map,
      show ((List.range n).map (List.countP p ∘ blk)) = (List.range n).map (fun _ => 1)
        from List.map_congr_left (fun i hi => hp i (List.mem_range.1 hi)),
      sum_map_range_const]
    omega
  refine ⟨?_, fun i hi => ?_, ?_, ?_, ?_⟩
  · rw [List.length_map, List.length_flatten, List.map_map,
      show ((List.range n).map (List.length ∘ blk)) = (List.range n).map (fun _ => 3)
        from List.map_congr_left (fun i _ => by
          rw [Function.comp_apply, hblk, shuffleList_length]; rfl),
      sum_map_range_const]
  · exact ⟨by rw [hslice i hi, hcompE]; exact (hcnts i hi).1,
      by rw [hslice i hi, hcompM]; exact (hcnts i hi).2.1,
      by rw [hslice i hi, hcompH]; exact (hcnts i hi).2.2⟩
  · rw [hcompE]; exact htot _ (fun i hi => (hcnts i hi).1)
  · rw [hcompM]; exact htot _ (fun i hi => (hcnts i hi).2.1)
  · rw [hcompH]; exact htot _ (fun i hi => (hcnts i hi).2.2)


/-- Full specification of the assembler over the original bank list. -/
theorem assembleCore_spec (r : RandSrc) (qs : List QuestionRec) :
    (assembleCore r qs).length =
      3 * min (qs.countP (fun q => q.questionType == "easy"))
          (min (qs.countP (fun q => q.questionType == "moderate"))
            (qs.countP (fun q => q.questionType == "hard"))) ∧
    (∀ i, i < min (qs.countP (fun q => q.questionType == "easy"))
          (min (qs.countP (fun q => q.questionType == "moderate"))
            (qs.countP (fun q => q.questionType == "hard"))) →
      (((assembleCore r qs).drop (3 * i)).take 3).countP (fun q => q.type == "easy") = 1 ∧
      (((assembleCore r qs).drop (3 * i)).take 3).countP
        (fun q => q.type == "moderate") = 1 ∧
      (((assembleCore r qs).drop (3 * i)).take 3).countP (fun q => q.type == "hard") = 1) ∧
    (assembleCore r qs).countP (fun q => q.type == "easy") =
      min (qs.countP (fun q => q.questionType == "easy"))
        (min (qs.countP (fun q => q.questionType == "moderate"))
          (qs.countP (fun q => q.questionType == "hard"))) ∧
    (assembleCore r qs).countP (fun q => q.type == "moderate") =
      min (qs.countP (fun q => q.questionType == "easy"))
        (min (qs.countP (fun q => q.questionType == "moderate"))
          (qs.countP (fun q => q.questionType == "hard"))) ∧
    (assembleCore r qs).countP (fun q => q.type == "hard") =
      min (qs.countP (fun q => q.questionType == "easy"))
        (min (qs.countP (fun q => q.questionType == "moderate"))
          (qs.countP (fun q => q.questionType == "hard"))) := by
  have H := blocks_spec
    (shuffleList r.easyR (qs.filter (fun q => q.questionType == "easy")))
    (shuffleList r.moderateR (qs.filter (fun q => q.questionType == "moderate")))
    (shuffleList r.hardR (qs.filter (fun q => q.questionType == "hard")))
    r.tripletR (bucket_tier r.easyR qs "easy") (bucket_tier r.moderateR qs "moderate")
    (bucket_tier r.hardR qs "hard")
  have hform : assembleCore r qs =
      ((List.range (min
          (shuffleList r.easyR (qs.filter (fun q => q.questionType == "easy"))).length
          (min (shuffleList r.moderateR
              (qs.filter (fun q => q.questionType == "moderate"))).length
            (shuffleList r.hardR
              (qs.filter (fun q => q.questionType == "hard"))).length))).map (fun i =>
        shuffleList (r.tripletR i)
          [(shuffleList r.easyR (qs.filter (fun q => q.questionType == "easy"))).getD i
              default,
            (shuffleList r.moderateR
              (qs.filter (fun q => q.questionType == "moderate"))).getD i default,
            (shuffleList r.hardR (qs.filter (fun q => q.questionType == "hard"))).getD i
              default])).flatten.map cleanQuestion := rfl
  rw [← hform] at H
  rw [shuffleList_length, shuffleList_length, shuffleList_length,
    ← List.countP_eq_length_filter, ← List.countP_eq_length_filter,
    ← List.countP_eq_length_filter] at H
  exact H

/-- The assembled exam length is `3 * min(e, min(m, h))`. -/
theorem assembleCore_length (r : RandSrc) (qs : List QuestionRec) :
    (assembleCore r qs).length =
      3 * min (qs.countP (fun q => q.questionType == "easy"))
          (min (qs.countP (fun q => q.questionType == "moderate"))
            (qs.countP (fun q => q.questionType == "hard"))) :=
  (assembleCore_spec r qs).1

/-- **C2.** For every bank and every realization of the random draws, with
`e`, `m`, `h` the tier counts and `n = min(e, min(m, h))`: the assembled
exam has exactly `3 * n` questions; every consecutive triplet (positions
`3i, 3i+1, 3i+2`) contains exactly one question of each tier; and each
tier contributes exactly `n` questions in total — surplus questions
beyond the scarcest tier never appear in the output. -/
theorem exam_assembly_balanced (r : RandSrc) (qs : List QuestionRec) :
    (assembleCore r qs).length =
      3 * min (qs.countP (fun q => q.questionType == "easy"))
          (min (qs.countP (fun q => q.questionType == "moderate"))
            (qs.countP (fun q => q.questionType == "hard"))) ∧
    (∀ i, i < min (qs.countP (fun q => q.questionType == "easy"))
          (min (qs.countP (fun q => q.questionType == "moderate"))
            (qs.countP (fun q => q.questionType == "hard"))) →
      (((assembleCore r qs).drop (3 * i)).take 3).countP (fun q => q.type == "easy") = 1 ∧
      (((assembleCore r qs).drop (3 * i)).take 3).countP
        (fun q => q.type == "moderate") = 1 ∧
      (((assembleCore r qs).drop (3 * i)).take 3).countP (fun q => q.type == "hard") = 1) ∧
    (assembleCore r qs).countP (fun q => q.type == "easy") =
      min (qs.countP (fun q => q.questionType == "easy"))
        (min (qs.countP (fun q => q.questionType == "moderate"))
          (qs.countP (fun q => q.questionType == "hard"))) ∧
    (assembleCore r qs).countP (fun q => q.type == "moderate") =
      min (qs.countP (fun q => q.questionType == "easy"))
        (min (qs.countP (fun q => q.questionType == "moderate"))
          (qs.countP (fun q => q.questionType == "hard"))) ∧
    (assembleCore r qs).countP (fun q => q.type == "hard") =
      min (qs.countP (fun q => q.questionType == "easy"))
        (min (qs.countP (fun q => q.questionType == "moderate"))
          (qs.countP (fun q => q.questionType == "hard"))) :=
  assembleCore_spec r qs

/-- **C4.** On an open record, setup on a wholly empty bank answers 404
(`NotFound`), never a successful empty exam; setup on a non-empty bank
succeeds, and when some difficulty tier is empty the exam it returns has
length 0 — an empty success, not an error. -/
theorem setup_empty_bank (r : RandSrc) (bank user : String) (qs : List QuestionRec)
    (c : Candidate) (hopen : c.result = "") :
    (qs = [] → testSetup r bank user qs c = (SetupRes.bankNotFound, c)) ∧
    (qs ≠ [] →
      testSetup r bank user qs c = (SetupRes.ok (bank, user) (assembleCore r qs), c)) ∧
    (qs ≠ [] →
      (qs.countP (fun q => q.questionType == "easy") = 0 ∨
        qs.countP (fun q => q.questionType == "moderate") = 0 ∨
        qs.countP (fun q => q.questionType == "hard") = 0) →
      testSetup r bank user qs c = (SetupRes.ok (bank, user) [], c)) := by
  have hok : qs ≠ [] →
      testSetup r bank user qs c = (SetupRes.ok (bank, user) (assembleCore r qs), c) := by
    intro hne
    have : qs.length ≠ 0 := by simpa [List.length_eq_zero] using hne
    simp [testSetup, hopen, this]
  refine ⟨fun hnil => ?_, hok, fun hne hzero => ?_⟩
  · subst hnil; simp [testSetup, hopen]
  · have hempty : assembleCore r qs = [] := by
      rw [← List.length_eq_zero, assembleCore_length]
      rcases hzero with hz | hz | hz <;> simp [hz]
    rw [hok hne, hempty]

/-- Witness for C4: an empty bank gives 404; a bank holding one easy
question (no moderate tier) gives a successful empty exam. -/
theorem setup_empty_bank_witness :
    testSetup ⟨fun _ => 0, fun _ => 0, fun _ => 0, fun _ _ => 0⟩ "Go Backend" "u" []
        ⟨"u", "h", "Go", "Backend", "Mail Sent", "", "", ""⟩ =
      (SetupRes.bankNotFound, ⟨"u", "h", "Go", "Backend", "Mail Sent", "", "", ""⟩) ∧
    testSetup ⟨fun _ => 0, fun _ => 0, fun _ => 0, fun _ _ => 0⟩ "Go Backend" "u"
        [⟨"Go Backend", "GB001", "q", [], "", "easy", "a"⟩]
        ⟨"u", "h", "Go", "Backend", "Mail Sent", "", "", ""⟩ =
      (SetupRes.ok ("Go Backend", "u") [],
        ⟨"u", "h", "Go", "Backend", "Mail Sent", "", "", ""⟩) := by
  constructor
  · exact (setup_empty_bank ⟨fun _ => 0, fun _ => 0, fun _ => 0, fun _ _ => 0⟩
      "Go Backend" "u" [] ⟨"u", "h", "Go", "Backend", "Mail Sent", "", "", ""⟩ rfl).1 rfl
  · exact (setup_empty_bank ⟨fun _ => 0, fun _ => 0, fun _ => 0, fun _ _ => 0⟩
      "Go Backend" "u" [⟨"Go Backend", "GB001", "q", [], "", "easy", "a"⟩]
      ⟨"u", "h", "Go", "Backend", "Mail Sent", "", "", ""⟩ rfl).2.2 (by decide)
      (Or.inr (Or.inl (by decide)))


/-- Witness-style instantiation for C2: the spec's "Go Backend" scenario
bank (5 easy, 3 moderate, 4 hard) assembles to 9 questions, and the first
triplet holds one easy question. -/
theorem exam_assembly_balanced_witness :
    (assembleCore ⟨fun _ => 0, fun _ => 0, fun _ => 0, fun _ _ => 0⟩ goBackendBank).length
      = 9 ∧
    (((assembleCore ⟨fun _ => 0, fun _ => 0, fun _ => 0, fun _ _ => 0⟩
        goBackendBank).drop 0).take 3).countP (fun q => q.type == "easy") = 1 := by
  have H := exam_assembly_balanced ⟨fun _ => 0, fun _ => 0, fun _ => 0, fun _ _ => 0⟩
    goBackendBank
  refine ⟨?_, ?_⟩
  · rw [H.1]; decide
  · have h0 := (H.2.1 0 (by decide)).1
    simpa using h0

/-! ## Claim theorems: question-bank CRUD -/

/-- Counterexample for C9: the claim's id rule (first-word initial plus
last-word initial) predicts `"PP001"` for the single-word bank
`"Python"`, but adding the first question to that bank assigns `"P001"` —
the code emits a one-letter prefix when the name has no second word. -/
theorem add_single_word_bank_cx :
    ((addQuestion [] "Python" "q" [] "" "easy" "a").map (fun q => q.questionId))
      = ["P001"] ∧
    specNextId "Python" 0 = "PP001" ∧
    ("P001" : String) ≠ "PP001" := by decide

/-- **C9 (amended).** The identifier assigned to a question added to bank
`B` holding `k` questions is the uppercased prefix followed by `k + 1`
zero-padded to 3 digits, where the prefix is the first letter of the first
space-separated part of `B` plus — only when `B` has more than one part —
the first letter of the last part; a single-word bank name yields a
one-letter prefix. -/
theorem addQuestion_id_assignment (store : List QuestionRec) (bank question : String)
    (refs : List String) (opts ty ans : String) :
    ((addQuestion store bank question refs opts ty ans).map (fun q => q.questionId)).getLast?
      = some (nextQuestionId bank
          ((store.filter (fun q => q.questionBankName == bank)).length)) ∧
    ((jsSplit ' ' bank).length > 1 →
      nextQuestionId bank ((store.filter (fun q => q.questionBankName == bank)).length) =
        jsToUpper (charAt0 ((jsSplit ' ' bank).headD "") ++
            charAt0 ((jsSplit ' ' bank).getD ((jsSplit ' ' bank).length - 1) "")) ++
          jsPadStart3
            (toString ((store.filter (fun q => q.questionBankName == bank)).length + 1))) ∧
    ((jsSplit ' ' bank).length = 1 →
      nextQuestionId bank ((store.filter (fun q => q.questionBankName == bank)).length) =
        jsToUpper (charAt0 ((jsSplit ' ' bank).headD "")) ++
          jsPadStart3
            (toString ((store.filter (fun q => q.questionBankName == bank)).length + 1))) := by
  refine ⟨?_, fun hgt => ?_, fun heq => ?_⟩
  · simp [addQuestion, List.getLast?_concat]
  · cases hp : jsSplit ' ' bank with
    | nil => rw [hp] at hgt; simp at hgt
    | cons p ps =>
      rw [hp] at hgt
      simp only [nextQuestionId, hp, List.get?_cons_zero, List.headD_cons,
        if_pos hgt]
      by_cases hp0 : p = ""
      · rw [if_pos hp0, hp0]; rfl
      · rw [if_neg hp0]
  · cases hp : jsSplit ' ' bank with
    | nil => rw [hp] at heq; simp at heq
    | cons p ps =>
      rw [hp] at heq
      have hps : ps = [] := by
        simpa [List.length_eq_zero] using heq
      subst hps
      simp only [nextQuestionId, hp, List.get?_cons_zero, List.headD_cons]
      rw [if_neg (show ¬([p].length > 1) from by simp)]
      by_cases hp0 : p = ""
      · rw [if_pos hp0, hp0]; rfl
      · rw [if_neg hp0]
        congr 2
        exact String.append_empty (charAt0 p)

/-- Witness for C9 (amended): the spec's own example — bank
`"Python Scripting"` with no questions assigns `"PS001"`. -/
theorem addQuestion_id_assignment_witness :
    ((addQuestion [] "Python Scripting" "q" [] "" "easy" "a").map
      (fun q => q.questionId)).getLast? = some "PS001" := by
  have h := addQuestion_id_assignment [] "Python Scripting" "q" [] "" "easy" "a"
  rw [h.1]
  decide

/-- Counterexample for C6: the update and delete endpoints for bank
`"Python Scripting"` modify and remove a question that belongs to bank
`"Plant Science"`, because the Mongo filter uses only `questionId` and
ignores the `:questionBankName` route parameter. -/
theorem update_ignores_bank_cx :
    (updateQuestion [⟨"Plant Science", "PS001", "orig", [], "", "easy", "a"⟩]
        "Python Scripting" "PS001" "hacked" [] "" "easy" "b").2 =
      [⟨"Plant Science", "PS001", "hacked", [], "", "easy", "b"⟩] ∧
    (deleteQuestion [⟨"Plant Science", "PS001", "orig", [], "", "easy", "a"⟩]
        "Python Scripting" "PS001").2 = [] ∧
    ("Plant Science" : String) ≠ "Python Scripting" := by decide

/-- `findOneAndUpdate({questionId})` preserves the multiplicity of every
record with a different id. -/
theorem count_findOneAndUpdateById (qid : String) (nq : String)
    (refs : List String) (no nt na : String) (q : QuestionRec)
    (hq : q.questionId ≠ qid) :
    ∀ store : List QuestionRec,
      List.count q (findOneAndUpdateById store qid nq refs no nt na).2 =
        List.count q store := by
  intro store
  induction store with
  | nil => rfl
  | cons r rest ih =>
    by_cases hr : r.questionId = qid
    · simp only [findOneAndUpdateById, if_pos hr]
      rw [List.count_cons_of_ne (fun hEq => hq (by rw [hEq]; exact hr)),
        List.count_cons_of_ne (fun hEq => hq (by rw [hEq]; exact hr))]
    · simp only [findOneAndUpdateById, if_neg hr]
      rw [List.count_cons, List.count_cons, ih]

/-- `deleteOne({questionId})` preserves the multiplicity of every record
with a different id. -/
theorem count_deleteOneById (qid : String) (q : QuestionRec)
    (hq : q.questionId ≠ qid) :
    ∀ store : List QuestionRec,
      List.count q (deleteOneById store qid).2 = List.count q store := by
  intro store
  induction store with
  | nil => rfl
  | cons r rest ih =>
    by_cases hr : r.questionId = qid
    · simp only [deleteOneById, if_pos hr]
      rw [List.count_cons_of_ne (fun hEq => hq (by rw [hEq]; exact hr))]
    · simp only [deleteOneById, if_neg hr]
      rw [List.count_cons, List.count_cons, ih]

/-- **C6 (amended).** The update(by id) and delete(by id) endpoints locate
their target by the globally unique `questionId` alone, ignoring the bank
name in the route: every question whose id differs from the requested id
keeps its exact multiplicity in the store, but the single matched
question may belong to a different bank than the one named (see the
counterexample). -/
theorem update_delete_frame (store : List QuestionRec) (bank qid : String)
    (nq : String) (refs : List String) (no nt na : String) (q : QuestionRec)
    (hq : q.questionId ≠ qid) :
    List.count q (updateQuestion store bank qid nq refs no nt na).2 =
      List.count q store ∧
    List.count q (deleteQuestion store bank qid).2 = List.count q store :=
  ⟨count_findOneAndUpdateById qid nq (refs.filter (fun s => s ≠ "")) no nt na q hq store,
    count_deleteOneById qid q hq store⟩

/-- Witness for C6 (amended): updating/deleting id `"X001"` leaves the
question `"Y001"` of another bank with multiplicity 1. -/
theorem update_delete_frame_witness :
    List.count ⟨"B", "Y001", "q2", [], "", "hard", "a"⟩
      (updateQuestion
        [⟨"A", "X001", "q1", [], "", "easy", "a"⟩,
          ⟨"B", "Y001", "q2", [], "", "hard", "a"⟩]
        "A" "X001" "new" [] "" "easy" "b").2 = 1 ∧
    List.count ⟨"B", "Y001", "q2", [], "", "hard", "a"⟩
      (deleteQuestion
        [⟨"A", "X001", "q1", [], "", "easy", "a"⟩,
          ⟨"B", "Y001", "q2", [], "", "hard", "a"⟩]
        "A" "X001").2 = 1 := by
  have h := update_delete_frame
    [⟨"A", "X001", "q1", [], "", "easy", "a"⟩, ⟨"B", "Y001", "q2", [], "", "hard", "a"⟩]
    "A" "X001" "new" [] "" "easy" "b" ⟨"B", "Y001", "q2", [], "", "hard", "a"⟩
    (by decide)
  exact ⟨by rw [h.1]; decide, by rw [h.2]; decide⟩


/-! ## Claim theorems: uniformity of the shuffle

`shuffleArray` is the Fisher–Yates shuffle with one uniform draw over
`{0, …, i}` per loop counter `i`. Under the spec's randomness model all
`n!` choice vectors are equally likely; the theorems below show the map
from choice vectors to output lists is a bijection onto the permutations
of a duplicate-free input, so every permutation arises from exactly one
choice vector. -/

/-- Unfolding `swap` when both positions resolve. -/
theorem swap_get?_some {α : Type*} {l : List α} {i j : Nat} {x y : α}
    (hi : l.get? i = some x) (hj : l.get? j = some y) :
    swap l i j = (l.set i y).set j x := by
  unfold swap
  rw [hi, hj]

/-- `swap` at an out-of-range first index is the identity. -/
theorem swap_oob {α : Type*} (l : List α) (i j : Nat) (h : l.length ≤ i) :
    swap l i j = l := by
  unfold swap
  rw [List.get?_eq_none.2 h]

/-- The shuffle loop only reads draws at indices `≤ i`. -/
theorem fyAux_congr {α : Type*} (c c' : Nat → Nat) :
    ∀ (i : Nat) (l : List α), (∀ k, k ≤ i → c k = c' k) →
      fyAux c l i = fyAux c' l i := by
  intro i
  induction i with
  | zero => intro l _; rfl
  | succ i ih =>
    intro l hagree
    show fyAux c (swap l (i + 1) (c (i + 1) % (i + 2))) i = _
    rw [hagree (i + 1) (Nat.le_refl _)]
    exact ih _ (fun k hk => hagree k (Nat.le_succ_of_le hk))

/-- The shuffle loop at counter `i` never touches positions `> i`. -/
theorem fyAux_drop {α : Type*} (c : Nat → Nat) :
    ∀ (i : Nat) (l : List α), (fyAux c l i).drop (i + 1) = l.drop (i + 1) := by
  intro i
  induction i with
  | zero => intro l; rfl
  | succ i ih =>
    intro l
    show (fyAux c (swap l (i + 1) (c (i + 1) % (i + 2))) i).drop (i + 2) = _
    have hstep : ∀ l2 : List α, (fyAux c l2 i).drop (i + 2) = l2.drop (i + 2) := by
      intro l2
      calc (fyAux c l2 i).drop (i + 2)
          = ((fyAux c l2 i).drop (i + 1)).drop 1 := by
            rw [List.drop_drop]
        _ = (l2.drop (i + 1)).drop 1 := by rw [ih l2]
        _ = l2.drop (i + 2) := by rw [List.drop_drop]
    rw [hstep]
    by_cases hlen : i + 1 < l.length
    · have hjlt : c (i + 1) % (i + 2) < i + 2 := Nat.mod_lt _ (Nat.succ_pos _)
      have hj : c (i + 1) % (i + 2) < l.length := by omega
      rw [swap_get?_some (List.get?_eq_get hlen) (List.get?_eq_get hj),
        List.drop_set, if_pos (by omega), List.drop_set, if_pos (by omega)]
    · rw [swap_oob l _ _ (by omega)]

/-- Surjectivity of the loop: any permutation `l'` of `l` agreeing with
`l` beyond position `i` is reached by some sequence of in-range draws. -/
theorem fy_surj {α : Type*} [DecidableEq α] :
    ∀ (i : Nat) (l l' : List α), List.Perm l' l → l'.drop (i + 1) = l.drop (i + 1) →
      ∃ c : Nat → Nat, (∀ k, c k ≤ k) ∧ fyAux c l i = l' := by
  intro i
  induction i with
  | zero =>
    intro l l' hp hd
    refine ⟨fun _ => 0, fun k => Nat.zero_le k, ?_⟩
    show l = l'
    cases l with
    | nil => exact (hp.eq_nil).symm
    | cons a t =>
      cases l' with
      | nil => exact absurd hp.symm.eq_nil (by simp)
      | cons b t' =>
        have hd' : t' = t := by simpa using hd
        subst hd'
        have hcnt := hp.count_eq b
        rw [List.count_cons_self] at hcnt
        by_cases hab : a = b
        · rw [hab]
        · rw [List.count_cons_of_ne (fun h => hab h.symm)] at hcnt
          omega
  | succ i ih =>
    intro l l' hp hd
    by_cases hlen : i + 1 < l.length
    · have hlen' : i + 1 < l'.length := by rw [hp.length_eq]; exact hlen
      -- the element `l'` wants at position `i + 1`
      have h1 : l'.take (i + 2) ++ l.drop (i + 2) = l' := by
        rw [← hd, List.take_append_drop]
      have h2 : l.take (i + 2) ++ l.drop (i + 2) = l := List.take_append_drop _ _
      have htk : List.Perm (l'.take (i + 2)) (l.take (i + 2)) :=
        (List.perm_append_right_iff (l.drop (i + 2))).1 (by rw [h1, h2]; exact hp)
      have hmem : l'.get ⟨i + 1, hlen'⟩ ∈ l.take (i + 2) := by
        refine htk.mem_iff.1 ?_
        have hidx : i + 1 < (l'.take (i + 2)).length := by
          rw [List.length_take]
          omega
        have hgt : (l'.take (i + 2)).get ⟨i + 1, hidx⟩ = l'.get ⟨i + 1, hlen'⟩ := by
          simp [List.getElem_take]
        rw [← hgt]
        exact List.get_mem _ _ _
      obtain ⟨j, hj, hxj⟩ := List.mem_iff_getElem.1 hmem
      have hj2 : j < i + 2 := by
        rw [List.length_take] at hj
        omega
      have hjl : j < l.length := by
        rw [List.length_take] at hj
        omega
      have hlj : l[j]? = some (l'.get ⟨i + 1, hlen'⟩) := by
        rw [List.getElem?_eq_getElem hjl, ← hxj]
        simp [List.getElem_take]
      have hswap : swap l (i + 1) j =
          (l.set (i + 1) (l'.get ⟨i + 1, hlen'⟩)).set j (l.get ⟨i + 1, hlen⟩) :=
        swap_get?_some (List.get?_eq_get hlen)
          (by rw [List.get?_eq_getElem?]; exact hlj)
      have hlen2 : (swap l (i + 1) j).length = l.length :=
        (swap_perm l (i + 1) j).length_eq
      have hdrop2 : (swap l (i + 1) j).drop (i + 2) = l.drop (i + 2) := by
        rw [hswap, List.drop_set, if_pos (by omega), List.drop_set, if_pos (by omega)]
      have hget2 : (swap l (i + 1) j)[i + 1]? = some (l'.get ⟨i + 1, hlen'⟩) := by
        rw [hswap]
        by_cases hji : j = i + 1
        · subst hji
          rw [List.getElem?_set_self (by simpa using hlen)]
          have h5 := hlj
          rw [List.getElem?_eq_getElem hjl] at h5
          rw [List.get_eq_getElem, Option.some.injEq]
          exact Option.some.inj h5
        · rw [List.getElem?_set_ne hji, List.getElem?_set_self hlen]
      have hp2 : List.Perm l' (swap l (i + 1) j) :=
        hp.trans (swap_perm l (i + 1) j).symm
      have hd2 : l'.drop (i + 1) = (swap l (i + 1) j).drop (i + 1) := by
        have hsl : i + 1 < (swap l (i + 1) j).length := by omega
        rw [List.drop_eq_getElem_cons hlen', List.drop_eq_getElem_cons hsl, hdrop2, hd]
        congr 1
        have h3 := hget2
        rw [List.getElem?_eq_getElem hsl] at h3
        have h4 := Option.some.inj h3
        rw [h4]
        exact (List.get_eq_getElem l' ⟨i + 1, hlen'⟩).symm
      obtain ⟨c, hc, hfy⟩ := ih (swap l (i + 1) j) l' hp2 hd2
      refine ⟨Function.update c (i + 1) j, fun k => ?_, ?_⟩
      · by_cases hk : k = i + 1
        · subst hk; rw [Function.update_same]; omega
        · rw [Function.update_noteq hk]; exact hc k
      · show fyAux (Function.update c (i + 1) j)
          (swap l (i + 1) (Function.update c (i + 1) j (i + 1) % (i + 2))) i = l'
        rw [Function.update_same, Nat.mod_eq_of_lt hj2,
          fyAux_congr (Function.update c (i + 1) j) c i (swap l (i + 1) j)
            (fun k hk => Function.update_noteq (by omega) j c)]
        exact hfy
    · obtain ⟨c, hc, hfy⟩ := ih l l' hp (by
        rw [List.drop_eq_nil_of_le (by omega : l.length ≤ i + 1),
          List.drop_eq_nil_of_le (by rw [hp.length_eq]; omega)])
      refine ⟨c, hc, ?_⟩
      show fyAux c (swap l (i + 1) (c (i + 1) % (i + 2))) i = l'
      rw [swap_oob l _ _ (by omega)]
      exact hfy

/-- The shuffle driven by a choice vector permutes the list. -/
theorem shuffleVec_perm {α : Type*} {n : Nat} (v : ChoiceVec n) (l : List α) :
    List.Perm (shuffleVec v l) l :=
  shuffleList_perm (vecToFun v) l

/-- Every permutation of `l` is produced by at least one choice vector. -/
theorem shuffleVec_surj {α : Type*} [DecidableEq α] (l l' : List α)
    (hp : List.Perm l' l) : ∃ v : ChoiceVec l.length, shuffleVec v l = l' := by
  obtain ⟨c, hc, hfy⟩ := fy_surj (l.length - 1) l l' hp (by
    rw [List.drop_eq_nil_of_le (show l'.length ≤ l.length - 1 + 1 by
        rw [hp.length_eq]; omega),
      List.drop_eq_nil_of_le (show l.length ≤ l.length - 1 + 1 by omega)])
  refine ⟨fun i => ⟨c i.val % (i.val + 1), Nat.mod_lt _ (Nat.succ_pos _)⟩, ?_⟩
  have hagree : ∀ k, k ≤ l.length - 1 →
      vecToFun (fun i : Fin l.length =>
        (⟨c i.val % (i.val + 1), Nat.mod_lt _ (Nat.succ_pos _)⟩ : Fin (i.val + 1))) k
        = c k := by
    intro k hk
    by_cases hkn : k < l.length
    · unfold vecToFun
      rw [dif_pos hkn]
      exact Nat.mod_eq_of_lt (Nat.lt_succ_of_le (hc k))
    · unfold vecToFun
      rw [dif_neg hkn]
      have := hc k
      omega
  show fyAux _ l (l.length - 1) = l'
  rw [fyAux_congr _ c (l.length - 1) l hagree]
  exact hfy


/-- There are exactly `n!` choice vectors for a list of length `n`. -/
theorem card_choiceVec (n : Nat) : Fintype.card (ChoiceVec n) = n.factorial := by
  rw [Fintype.card_pi]
  simp only [Fintype.card_fin]
  rw [Fin.prod_univ_eq_prod_range (fun i => i + 1) n]
  exact Finset.prod_range_add_one_eq_factorial n

/-- **C7.** With every draw uniform over its range (so all `n!` choice
vectors equally likely), the shuffle is unbiased on any duplicate-free
input: any two permutations of the input are each produced by exactly one
choice vector, hence with equal probability `1/n!`. This covers both the
per-tier buckets and the 3-element triplets of the assembler. -/
theorem shuffle_uniform {α : Type*} [DecidableEq α] (l : List α) (hnd : l.Nodup)
    (l1 l2 : List α) (h1 : List.Perm l1 l) (h2 : List.Perm l2 l) :
    (Finset.univ.filter (fun v : ChoiceVec l.length => shuffleVec v l = l1)).card = 1 ∧
    (Finset.univ.filter (fun v : ChoiceVec l.length => shuffleVec v l = l2)).card = 1 := by
  have himage : Finset.univ.image (fun v : ChoiceVec l.length => shuffleVec v l) =
      l.permutations.toFinset := by
    apply Finset.Subset.antisymm
    · intro x hx
      obtain ⟨v, -, rfl⟩ := Finset.mem_image.1 hx
      rw [List.mem_toFinset, List.mem_permutations]
      exact shuffleVec_perm v l
    · intro x hx
      rw [List.mem_toFinset, List.mem_permutations] at hx
      obtain ⟨v, hv⟩ := shuffleVec_surj l x hx
      exact Finset.mem_image.2 ⟨v, Finset.mem_univ v, hv⟩
  have hcard : (Finset.univ.image (fun v : ChoiceVec l.length => shuffleVec v l)).card =
      (Finset.univ : Finset (ChoiceVec l.length)).card := by
    rw [himage, List.toFinset_card_of_nodup (List.nodup_permutations l hnd),
      List.length_permutations, Finset.card_univ, card_choiceVec]
  have hinjOn := Finset.card_image_iff.1 hcard
  have hinj : ∀ a b : ChoiceVec l.length, shuffleVec a l = shuffleVec b l → a = b :=
    fun a b hab => hinjOn (by simp) (by simp) hab
  have H : ∀ l' : List α, List.Perm l' l →
      (Finset.univ.filter (fun v : ChoiceVec l.length => shuffleVec v l = l')).card = 1 := by
    intro l' hl'
    obtain ⟨v0, hv0⟩ := shuffleVec_surj l l' hl'
    rw [Finset.card_eq_one]
    refine ⟨v0, ?_⟩
    ext v
    simp only [Finset.mem_filter, Finset.mem_univ, true_and, Finset.mem_singleton]
    constructor
    · intro h
      exact hinj v v0 (by rw [h, hv0])
    · intro h
      rw [h, hv0]
  exact ⟨H l1 h1, H l2 h2⟩

/-- Witness for C7 on a 3-element list (the triplet case): each of two
distinct orderings of `[0, 1, 2]` is reached by exactly one of the six
choice vectors. -/
theorem shuffle_uniform_witness :
    ([0, 1, 2] : List Nat).Nodup ∧
    List.Perm [2, 0, 1] ([0, 1, 2] : List Nat) ∧
    List.Perm [1, 2, 0] ([0, 1, 2] : List Nat) ∧
    (Finset.univ.filter
      (fun v : ChoiceVec ([0, 1, 2] : List Nat).length =>
        shuffleVec v [0, 1, 2] = [2, 0, 1])).card = 1 ∧
    (Finset.univ.filter
      (fun v : ChoiceVec ([0, 1, 2] : List Nat).length =>
        shuffleVec v [0, 1, 2] = [1, 2, 0])).card = 1 := by
  have h := shuffle_uniform ([0, 1, 2] : List Nat) (by decide) [2, 0, 1] [1, 2, 0]
    (by decide) (by decide)
  exact ⟨by decide, by decide, by decide, h.1, h.2⟩

end HAT
